import Mathlib

/-!
Verification development for the vatts-docs repository.

The repository documents a web framework whose core design content is a
route pattern resolution and dispatch engine (pattern compiler, route
table, matcher, dispatcher).  The engine itself is not implemented in the
repository, so its data model and operations are modelled from the design
document; the two concrete pieces of code that are present
(`src/vatts.config.ts` and the chat WebSocket route example in the routing
guide) are embedded directly from their source.
-/

namespace VattsRouter

/-- Modelled from the spec: one atom of a route pattern (spec section 3,
"Segment"). The routing engine is not implemented in this repository, so
the data model follows the design document. Literal text and parameter
names are kept as character lists. -/
inductive Segment : Type
  | Literal (text : List Char)
  | Required (name : List Char)
  | Optional (name : List Char)
  | CatchAll (name : List Char)
  | OptionalCatchAll (name : List Char)
deriving DecidableEq, Repr

/-- Modelled from the spec: compile-time pattern errors (spec section 4.1). -/
inductive PatternError : Type
  | InvalidSegment
  | MisplacedCatchAll
  | DuplicateParam
deriving DecidableEq, Repr

/-- Splitting state machine: accumulates the current segment (reversed) while
walking the characters; empty segments are dropped, which collapses
leading, trailing and doubled slashes as the spec's path normalisation
requires. -/
def splitSegsAux : List Char → List Char → List (List Char)
  | cur, [] => if cur = [] then [] else [cur.reverse]
  | cur, c :: rest =>
    if c = '/' then
      if cur = [] then splitSegsAux [] rest
      else cur.reverse :: splitSegsAux [] rest
    else splitSegsAux (c :: cur) rest

/-- Modelled from the spec: split a pattern string or request path on the
slash delimiter into its non-empty segments (spec sections 4.1 and 4.3;
a bare "/" yields zero segments). -/
def splitSegs (cs : List Char) : List (List Char) :=
  splitSegsAux [] cs

/-- Strip a leading run of characters, returning the remainder. -/
def dropLead : List Char → List Char → Option (List Char)
  | [], cs => some cs
  | _ :: _, [] => none
  | p :: ps, c :: cs => if p = c then dropLead ps cs else none

/-- Strip a trailing run of characters, returning the core. -/
def dropTail (suf cs : List Char) : Option (List Char) :=
  (dropLead suf.reverse cs.reverse).map List.reverse

/-- A parameter name is a non-empty run of characters free of bracket
syntax, dots and the segment delimiter. -/
def validName (cs : List Char) : Bool :=
  !cs.isEmpty && cs.all (fun c => c ≠ '[' && c ≠ ']' && c ≠ '.' && c ≠ '/')

/-- A literal segment is any other non-empty string; mixing in bracket
characters is rejected as InvalidSegment (spec section 4.1). -/
def validLit (cs : List Char) : Bool :=
  !cs.isEmpty && cs.all (fun c => c ≠ '[' && c ≠ ']' && c ≠ '/')

/-- Modelled from the spec: classify one non-empty segment by bracket shape
(spec sections 4.1 and 6): name is literal, one bracket pair is Required,
a doubled pair is Optional, a dotted single pair is CatchAll and a dotted
doubled pair is OptionalCatchAll; unbalanced or mixed syntax fails with
InvalidSegment. -/
def classifySeg (cs : List Char) : Except PatternError Segment :=
  match dropLead ['[', '[', '.', '.', '.'] cs with
  | some r =>
    match dropTail [']', ']'] r with
    | some name =>
      if validName name then Except.ok (Segment.OptionalCatchAll name)
      else Except.error PatternError.InvalidSegment
    | none => Except.error PatternError.InvalidSegment
  | none =>
  match dropLead ['[', '.', '.', '.'] cs with
  | some r =>
    match dropTail [']'] r with
    | some name =>
      if validName name then Except.ok (Segment.CatchAll name)
      else Except.error PatternError.InvalidSegment
    | none => Except.error PatternError.InvalidSegment
  | none =>
  match dropLead ['[', '['] cs with
  | some r =>
    match dropTail [']', ']'] r with
    | some name =>
      if validName name then Except.ok (Segment.Optional name)
      else Except.error PatternError.InvalidSegment
    | none => Except.error PatternError.InvalidSegment
  | none =>
  match dropLead ['['] cs with
  | some r =>
    match dropTail [']'] r with
    | some name =>
      if validName name then Except.ok (Segment.Required name)
      else Except.error PatternError.InvalidSegment
    | none => Except.error PatternError.InvalidSegment
  | none =>
    if validLit cs then Except.ok (Segment.Literal cs)
    else Except.error PatternError.InvalidSegment

/-- Classify every segment, propagating the first error. -/
def classifyAll : List (List Char) → Except PatternError (List Segment)
  | [] => Except.ok []
  | c :: rest =>
    match classifySeg c, classifyAll rest with
    | Except.ok s, Except.ok ss => Except.ok (s :: ss)
    | Except.error e, _ => Except.error e
    | _, Except.error e => Except.error e

/-- Whether a segment is a CatchAll or OptionalCatchAll. -/
def isCatchLike : Segment → Bool
  | Segment.CatchAll _ => true
  | Segment.OptionalCatchAll _ => true
  | _ => false

/-- A CatchAll or OptionalCatchAll segment appears in non-final position. -/
def misplacedCatchAll : List Segment → Bool
  | [] => false
  | s :: rest => (isCatchLike s && !rest.isEmpty) || misplacedCatchAll rest

/-- The parameter names of a segment list, in order. -/
def paramNames : List Segment → List (List Char)
  | [] => []
  | Segment.Literal _ :: rest => paramNames rest
  | Segment.Required n :: rest => n :: paramNames rest
  | Segment.Optional n :: rest => n :: paramNames rest
  | Segment.CatchAll n :: rest => n :: paramNames rest
  | Segment.OptionalCatchAll n :: rest => n :: paramNames rest

/-- Whether a list of names contains a repeated entry. -/
def hasDupNames : List (List Char) → Bool
  | [] => false
  | n :: rest => rest.contains n || hasDupNames rest

/-- Modelled from the spec: the specificity key of a compiled pattern (spec
section 4.1): count of leading Literal segments (descending), count of
Required segments (descending), presence of Optional (ascending), presence
of CatchAll or OptionalCatchAll (ascending), compared lexicographically. -/
structure SpecKey : Type where
  leadLits : Nat
  reqCount : Nat
  optFlag : Bool
  wildFlag : Bool
deriving DecidableEq, Repr

/-- Count of leading Literal segments. -/
def leadingLiterals : List Segment → Nat
  | Segment.Literal _ :: rest => leadingLiterals rest + 1
  | _ => 0

/-- Count of Required segments. -/
def requiredCount : List Segment → Nat
  | [] => 0
  | Segment.Required _ :: rest => requiredCount rest + 1
  | _ :: rest => requiredCount rest

/-- Presence of an Optional segment. -/
def hasOptionalSeg : List Segment → Bool
  | [] => false
  | Segment.Optional _ :: _ => true
  | _ :: rest => hasOptionalSeg rest

/-- Presence of a CatchAll or OptionalCatchAll segment. -/
def hasWildcardSeg : List Segment → Bool
  | [] => false
  | s :: rest => isCatchLike s || hasWildcardSeg rest

/-- The specificity key computed from a segment list. -/
def specKey (segs : List Segment) : SpecKey :=
  ⟨leadingLiterals segs, requiredCount segs, hasOptionalSeg segs, hasWildcardSeg segs⟩

/-- Modelled from the spec: a compiled pattern (spec section 3): the ordered
segment sequence, its original source string and its specificity key. -/
structure CompiledPattern : Type where
  source : List Char
  segments : List Segment
  key : SpecKey
deriving DecidableEq, Repr

/-- Modelled from the spec: the pattern compiler (spec section 4.1): split on
the delimiter, classify each non-empty segment, reject a non-final
CatchAll or OptionalCatchAll with MisplacedCatchAll and a repeated
parameter name with DuplicateParam, then produce the compiled pattern with
its specificity key. Pure function of its input. -/
def compileChars (cs : List Char) : Except PatternError CompiledPattern :=
  match classifyAll (splitSegs cs) with
  | Except.error e => Except.error e
  | Except.ok segs =>
    if misplacedCatchAll segs then Except.error PatternError.MisplacedCatchAll
    else if hasDupNames (paramNames segs) then Except.error PatternError.DuplicateParam
    else Except.ok ⟨cs, segs, specKey segs⟩

/-- Compile a pattern given as a string. -/
def compilePattern (s : String) : Except PatternError CompiledPattern :=
  compileChars s.data

/-- Modelled from the spec: the value bound to one parameter in a match
result (spec section 3): a single path segment for Required and Optional,
an explicit absent marker for an unconsumed Optional, and an ordered
sequence of path segments for CatchAll and OptionalCatchAll. -/
inductive ParamVal : Type
  | str (v : List Char)
  | absent
  | seq (vs : List (List Char))
deriving DecidableEq, Repr

/-- Parameter bindings of a match, in pattern order. -/
abbrev Binds : Type := List (List Char × ParamVal)

/-- Modelled from the spec: the segment walk of the matcher (spec section
4.3). Literal must equal the path segment; Required consumes exactly one
existing segment; Optional consumes at most one segment, binding an
explicit absent value and continuing in place when it consumes none;
CatchAll consumes one or more remaining segments and fails on zero;
OptionalCatchAll consumes zero or more and never fails; the walk succeeds
only when every path segment is consumed. -/
def matchSegs : List Segment → List (List Char) → Option Binds
  | [], [] => some []
  | [], _ :: _ => none
  | Segment.Literal t :: ps, s :: ss => if t = s then matchSegs ps ss else none
  | Segment.Literal _ :: _, [] => none
  | Segment.Required n :: ps, s :: ss =>
    (matchSegs ps ss).map (fun bs => (n, ParamVal.str s) :: bs)
  | Segment.Required _ :: _, [] => none
  | Segment.Optional n :: ps, [] =>
    (matchSegs ps []).map (fun bs => (n, ParamVal.absent) :: bs)
  | Segment.Optional n :: ps, s :: ss =>
    match matchSegs ps ss with
    | some bs => some ((n, ParamVal.str s) :: bs)
    | none => (matchSegs ps (s :: ss)).map (fun bs => (n, ParamVal.absent) :: bs)
  | Segment.CatchAll _ :: _, [] => none
  | Segment.CatchAll n :: _, s :: ss => some [(n, ParamVal.seq (s :: ss))]
  | Segment.OptionalCatchAll n :: _, ss => some [(n, ParamVal.seq ss)]

/-- Match a compiled pattern against a request path string. -/
def matchPattern (cp : CompiledPattern) (path : String) : Option Binds :=
  matchSegs cp.segments (splitSegs path.data)

/-- Modelled from the spec: build-time route table errors (spec sections 4.2
and 7). -/
inductive RouteError : Type
  | Pattern (e : PatternError)
  | DuplicateExact
deriving DecidableEq, Repr

/-- Modelled from the spec: a route entry binds a compiled pattern to a
handler bundle (spec section 3); the bundle is opaque to the table. -/
structure RouteEntry (α : Type) : Type where
  pattern : CompiledPattern
  bundle : α
deriving DecidableEq, Repr

/-- Strict specificity order between two keys: the lexicographic comparison
of (leading literals, descending), (required count, descending),
(optional presence, ascending), (wildcard presence, ascending). -/
def specBefore (a b : SpecKey) : Bool :=
  if a.leadLits ≠ b.leadLits then decide (b.leadLits < a.leadLits)
  else if a.reqCount ≠ b.reqCount then decide (b.reqCount < a.reqCount)
  else if a.optFlag ≠ b.optFlag then a.optFlag = false
  else decide (a.wildFlag = false ∧ b.wildFlag = true)

/-- Insert an entry keeping the table sorted by specificity, placing the new
entry after existing entries of equal key (first registered wins ties). -/
def insertEntry (e : RouteEntry α) : List (RouteEntry α) → List (RouteEntry α)
  | [] => [e]
  | x :: xs =>
    if specBefore e.pattern.key x.pattern.key then e :: x :: xs
    else x :: insertEntry e xs

/-- The structural shape of a segment: literal text kept, parameter names
erased; two patterns of identical shape are ambiguous at build time. -/
def segShape : Segment → Segment
  | Segment.Literal t => Segment.Literal t
  | Segment.Required _ => Segment.Required []
  | Segment.Optional _ => Segment.Optional []
  | Segment.CatchAll _ => Segment.CatchAll []
  | Segment.OptionalCatchAll _ => Segment.OptionalCatchAll []

/-- Modelled from the spec: register one pattern with its bundle (spec
section 4.2): compile the pattern, reject a structurally identical
duplicate with DuplicateExact, and insert into the ordered table with the
specificity key as primary sort key and registration order as stable
tie-break. -/
def register (table : List (RouteEntry α)) (p : List Char) (b : α) :
    Except RouteError (List (RouteEntry α)) :=
  match compileChars p with
  | Except.error e => Except.error (RouteError.Pattern e)
  | Except.ok cp =>
    if table.any (fun x => x.pattern.segments.map segShape = cp.segments.map segShape) then
      Except.error RouteError.DuplicateExact
    else Except.ok (insertEntry ⟨cp, b⟩ table)

/-- Register a list of declarations in order, starting from a table. -/
def buildAux (table : List (RouteEntry α)) :
    List (List Char × α) → Except RouteError (List (RouteEntry α))
  | [] => Except.ok table
  | (p, b) :: rest =>
    match register table p b with
    | Except.error e => Except.error e
    | Except.ok t => buildAux t rest

/-- Modelled from the spec: build a route table from an ordered list of
(pattern, bundle) declarations (spec sections 4.2 and 6). -/
def build (entries : List (List Char × α)) : Except RouteError (List (RouteEntry α)) :=
  buildAux [] entries

/-- Modelled from the spec: the matcher's table walk (spec section 4.3):
iterate the table in order and return the first entry whose pattern
matches, with its bindings; NoMatch is the none result. -/
def tableMatch (table : List (RouteEntry α)) (path : List Char) :
    Option (RouteEntry α × Binds) :=
  match table with
  | [] => none
  | e :: rest =>
    match matchSegs e.pattern.segments (splitSegs path) with
    | some bs => some (e, bs)
    | none => tableMatch rest path

/-- Modelled from the spec: the request methods of the dispatcher (spec
section 6). -/
inductive Method : Type
  | GET
  | POST
  | PUT
  | DELETE
deriving DecidableEq, Repr

/-- Handler bundle shaped after BackendRouteConfig in the routing guide and
spec section 3: optional handlers per method, an optional WebSocket
handler and an ordered middleware list; handler values are opaque. -/
structure HandlerBundle (H W M : Type) : Type where
  get : Option H
  post : Option H
  put : Option H
  delete : Option H
  ws : Option W
  middleware : List M

/-- Modelled from the spec: request-time dispatch errors (spec section 7);
MethodNotAllowed carries the Allow listing. -/
inductive DispatchError : Type
  | MethodNotAllowed (allow : List Method)
  | MiddlewareFailed
  | HandlerFailed
deriving DecidableEq, Repr

/-- The handler slot of a bundle for a method. -/
def handlerFor (b : HandlerBundle H W M) : Method → Option H
  | Method.GET => b.get
  | Method.POST => b.post
  | Method.PUT => b.put
  | Method.DELETE => b.delete

/-- The methods a bundle declares, in GET, POST, PUT, DELETE order. -/
def declaredMethods (b : HandlerBundle H W M) : List Method :=
  (if b.get.isSome then [Method.GET] else []) ++
  (if b.post.isSome then [Method.POST] else []) ++
  (if b.put.isSome then [Method.PUT] else []) ++
  (if b.delete.isSome then [Method.DELETE] else [])

/-- The work the dispatcher would perform on success: run the middleware
chain in order and then the terminal handler; producing this plan is what
"invoking" means in the model, so an error result invokes nothing. -/
inductive DispatchPlan (H M : Type) : Type
  | run (chain : List M) (handler : H)
deriving DecidableEq

/-- Modelled from the spec: HTTP dispatch (spec section 4.4): select the
bundle's handler for the request method; if absent, fail with
MethodNotAllowed listing the bundle's declared methods before any
middleware or handler runs; otherwise produce the middleware chain and
handler to run. -/
def dispatchHTTP (b : HandlerBundle H W M) (m : Method) :
    Except DispatchError (DispatchPlan H M) :=
  match handlerFor b m with
  | none => Except.error (DispatchError.MethodNotAllowed (declaredMethods b))
  | some h => Except.ok (DispatchPlan.run b.middleware h)

/-- Serialize one segment back into bracket form (spec section 6): literal
text unchanged, one bracket pair for Required, a doubled pair for
Optional, a dotted pair for CatchAll, a dotted doubled pair for
OptionalCatchAll. -/
def serializeSeg : Segment → List Char
  | Segment.Literal t => t
  | Segment.Required n => '[' :: (n ++ [']'])
  | Segment.Optional n => '[' :: '[' :: (n ++ [']', ']'])
  | Segment.CatchAll n => '[' :: '.' :: '.' :: '.' :: (n ++ [']'])
  | Segment.OptionalCatchAll n => '[' :: '[' :: '.' :: '.' :: '.' :: (n ++ [']', ']'])

/-- Join chunks with a slash in front of each, producing a canonical
slash-led pattern string. -/
def joinSegs : List (List Char) → List Char
  | [] => []
  | s :: rest => '/' :: (s ++ joinSegs rest)

/-- Serialize a segment list back into a bracket-form pattern string. -/
def serializeSegs (segs : List Segment) : List Char :=
  joinSegs (segs.map serializeSeg)

/-- Well-formedness of a segment as the classifier guarantees it: literal
text is a valid literal and parameter names are valid names. -/
def segWF : Segment → Bool
  | Segment.Literal t => validLit t
  | Segment.Required n => validName n
  | Segment.Optional n => validName n
  | Segment.CatchAll n => validName n
  | Segment.OptionalCatchAll n => validName n

end VattsRouter

namespace VattsConfig

/-- A JavaScript value as far as the configuration file needs one. -/
inductive JSValue : Type
  | num (n : Int)
  | str (s : String)
  | boolean (b : Bool)
deriving DecidableEq

/-- A JavaScript object: a partial map from field name to value. -/
def JSObject : Type := String → Option JSValue

/-- Object spread followed by a field override, as in a literal of the form
brace, spread of o, k colon v, close brace. -/
def objSet (o : JSObject) (k : String) (v : JSValue) : JSObject :=
  fun key => if key = k then some v else o key

/-- The second argument of a VattsConfigFunction, of which the source
destructures the defaultConfig field. -/
structure ConfigContext : Type where
  defaultConfig : JSObject

/-- Embedding of vattsConfig from src/vatts.config.ts: it returns the spread
of defaultConfig with port set to 3000 and ignores the phase argument. -/
def vattsConfig (phase : String) (ctx : ConfigContext) : JSObject :=
  objSet ctx.defaultConfig "port" (JSValue.num 3000)

end VattsConfig

namespace ChatRoute

/-- A WebSocket connection handle; the example compares handles for
identity, which the model renders as equality of opaque identifiers. -/
abbrev WSConn : Type := Nat

/-- The JSON payload the chat route broadcasts: a type tag and the text
taken from the parsed incoming message. -/
structure ChatPayload : Type where
  type : String
  text : String
deriving DecidableEq, Repr

/-- The object the onMessage handler stringifies and sends: type "message"
with the incoming text. -/
def broadcastPayload (text : String) : ChatPayload :=
  ⟨"message", text⟩

/-- Embedding of the broadcast loop in the chat route's onMessage handler
(routing guide, ws/chat.ts example): iterate the connections set and send
the payload to every client other than the originating connection. The
returned list records, in iteration order, each send the loop performs. -/
def onMessageSends (connections : List WSConn) (ws : WSConn) (text : String) :
    List (WSConn × ChatPayload) :=
  match connections with
  | [] => []
  | client :: rest =>
    if client ≠ ws then (client, broadcastPayload text) :: onMessageSends rest ws text
    else onMessageSends rest ws text

end ChatRoute


open VattsRouter VattsConfig ChatRoute

/-- C2: the compiled pattern /blog/[id] matches /blog/42 binding id to the
string 42, and fails on /blog and on /blog/42/comments; in general a
Required segment consumes exactly one existing path segment and fails when
none exists. -/
theorem c2_required_consumes_one :
    (∃ cp, compilePattern "/blog/[id]" = Except.ok cp ∧
      matchPattern cp "/blog/42" = some [("id".data, ParamVal.str "42".data)] ∧
      matchPattern cp "/blog" = none ∧
      matchPattern cp "/blog/42/comments" = none) ∧
    (∀ (n : List Char) (ps : List Segment) (s : List Char) (ss : List (List Char)),
      matchSegs (Segment.Required n :: ps) (s :: ss) =
        (matchSegs ps ss).map (fun bs => (n, ParamVal.str s) :: bs) ∧
      matchSegs (Segment.Required n :: ps) [] = none) :=
  ⟨⟨_, rfl, rfl, rfl, rfl⟩, fun _ _ _ _ => ⟨rfl, rfl⟩⟩

/-- C3: the compiled pattern /[[lang]]/about matches /about binding lang to
the explicit absent value and /en/about binding lang to en, and fails on
/en/us/about; in general an Optional segment consumes at most one path
segment, and when no segment is present it binds the absent value and the
walk continues at the same position. -/
theorem c3_optional_consumes_at_most_one :
    (∃ cp, compilePattern "/[[lang]]/about" = Except.ok cp ∧
      matchPattern cp "/about" = some [("lang".data, ParamVal.absent)] ∧
      matchPattern cp "/en/about" = some [("lang".data, ParamVal.str "en".data)] ∧
      matchPattern cp "/en/us/about" = none) ∧
    (∀ (n : List Char) (ps : List Segment),
      matchSegs (Segment.Optional n :: ps) [] =
        (matchSegs ps []).map (fun bs => (n, ParamVal.absent) :: bs)) ∧
    (∀ (n : List Char) (ps : List Segment) (s : List Char) (ss : List (List Char)),
      matchSegs (Segment.Optional n :: ps) (s :: ss) =
        match matchSegs ps ss with
        | some bs => some ((n, ParamVal.str s) :: bs)
        | none => (matchSegs ps (s :: ss)).map (fun bs => (n, ParamVal.absent) :: bs)) :=
  ⟨⟨_, rfl, rfl, rfl, rfl⟩, fun _ _ => rfl, fun _ _ _ _ => rfl⟩

/-- C4: the compiled pattern /docs/[...slug] matches /docs/a and /docs/a/b
binding slug to the ordered sequence of consumed segments, and fails on
/docs and on the bare path; in general a CatchAll segment consumes all one
or more remaining segments and fails when zero remain. -/
theorem c4_catchall_needs_one :
    (∃ cp, compilePattern "/docs/[...slug]" = Except.ok cp ∧
      matchPattern cp "/docs/a" = some [("slug".data, ParamVal.seq ["a".data])] ∧
      matchPattern cp "/docs/a/b" = some [("slug".data, ParamVal.seq ["a".data, "b".data])] ∧
      matchPattern cp "/docs" = none ∧
      matchPattern cp "/" = none) ∧
    (∀ (n : List Char) (ps : List Segment), matchSegs (Segment.CatchAll n :: ps) [] = none) ∧
    (∀ (n : List Char) (ps : List Segment) (s : List Char) (ss : List (List Char)),
      matchSegs (Segment.CatchAll n :: ps) (s :: ss) = some [(n, ParamVal.seq (s :: ss))]) :=
  ⟨⟨_, rfl, rfl, rfl, rfl, rfl⟩, fun _ _ => rfl, fun _ _ _ _ => rfl⟩

/-- C5: the compiled pattern /[[...path]] matches the bare path binding path
to the empty sequence and matches /a/b/c binding path to the sequence a,
b, c; in general an OptionalCatchAll segment consumes all zero or more
remaining segments and never fails. -/
theorem c5_optional_catchall_never_fails :
    (∃ cp, compilePattern "/[[...path]]" = Except.ok cp ∧
      matchPattern cp "/" = some [("path".data, ParamVal.seq [])] ∧
      matchPattern cp "/a/b/c" =
        some [("path".data, ParamVal.seq ["a".data, "b".data, "c".data])]) ∧
    (∀ (n : List Char) (ps : List Segment) (ss : List (List Char)),
      matchSegs (Segment.OptionalCatchAll n :: ps) ss = some [(n, ParamVal.seq ss)]) :=
  ⟨⟨_, rfl, rfl, rfl⟩, fun _ _ _ => rfl⟩

/-- C9: for every phase and every defaultConfig, the exported vattsConfig
function returns an object whose port field is 3000 and whose every other
field equals the corresponding field of defaultConfig. -/
theorem c9_config_overrides_only_port (phase : String) (ctx : ConfigContext) :
    vattsConfig phase ctx "port" = some (JSValue.num 3000) ∧
    ∀ k, k ≠ "port" → vattsConfig phase ctx k = ctx.defaultConfig k := by
  refine ⟨rfl, fun k hk => ?_⟩
  simp [vattsConfig, objSet, hk]

/-- Witness for C9 at a concrete phase, default configuration and field. -/
theorem c9_config_overrides_only_port_witness :
    vattsConfig "development" ⟨fun _ => none⟩ "port" = some (JSValue.num 3000) ∧
    vattsConfig "development" ⟨fun _ => none⟩ "host" = none :=
  ⟨(c9_config_overrides_only_port "development" ⟨fun _ => none⟩).1,
   (c9_config_overrides_only_port "development" ⟨fun _ => none⟩).2 "host" (by decide)⟩

/-- C10: in the chat route's onMessage handler, the broadcast payload is sent
to exactly the connections in the set other than the originating one, and
the originating connection never receives a copy of its own message. -/
theorem c10_broadcast_skips_sender (connections : List WSConn) (ws : WSConn) (text : String) :
    (∀ c, (c, broadcastPayload text) ∈ onMessageSends connections ws text ↔
      (c ∈ connections ∧ c ≠ ws)) ∧
    (∀ p, p ∈ onMessageSends connections ws text → p.1 ≠ ws) := by
  induction connections with
  | nil => simp [onMessageSends]
  | cons client rest ih =>
    by_cases h : client = ws
    · subst h
      constructor
      · intro c
        rw [onMessageSends, if_neg (by simp)]
        rw [(ih.1 c)]
        constructor
        · exact fun hm => ⟨List.mem_cons_of_mem _ hm.1, hm.2⟩
        · rintro ⟨hm, hne⟩
          rcases List.mem_cons.mp hm with h1 | h1
          · exact absurd h1 hne
          · exact ⟨h1, hne⟩
      · intro p hp
        rw [onMessageSends, if_neg (by simp)] at hp
        exact ih.2 p hp
    · constructor
      · intro c
        rw [onMessageSends, if_pos h]
        rw [List.mem_cons]
        constructor
        · rintro (h1 | h1)
          · rcases Prod.mk.injEq .. ▸ h1 with ⟨rfl, -⟩
            exact ⟨List.mem_cons_self .., h⟩
          · have := (ih.1 c).mp h1
            exact ⟨List.mem_cons_of_mem _ this.1, this.2⟩
        · rintro ⟨hm, hne⟩
          rcases List.mem_cons.mp hm with h1 | h1
          · subst h1; exact Or.inl rfl
          · exact Or.inr ((ih.1 c).mpr ⟨h1, hne⟩)
      · intro p hp
        rw [onMessageSends, if_pos h] at hp
        rcases List.mem_cons.mp hp with h1 | h1
        · subst h1; exact h
        · exact ih.2 p h1

/-- Witness for C10 at a concrete connection set, sender and message. -/
theorem c10_broadcast_skips_sender_witness :
    ((1 : WSConn), broadcastPayload "hi") ∈ onMessageSends [1, 2, 3] 2 "hi" ∧
    (((2 : WSConn), broadcastPayload "hi") ∈ onMessageSends [1, 2, 3] 2 "hi" → False) :=
  ⟨((c10_broadcast_skips_sender [1, 2, 3] 2 "hi").1 1).mpr (by decide),
   fun h => (c10_broadcast_skips_sender [1, 2, 3] 2 "hi").2 _ h rfl⟩

/-- C7: dispatching a POST against a bundle that declares a GET handler but
no POST handler fails with MethodNotAllowed carrying exactly the bundle's
declared methods as the Allow listing, producing no middleware or handler
invocation plan; when only GET is declared the listing is exactly GET. -/
theorem c7_method_not_allowed {H W M : Type} (b : HandlerBundle H W M)
    (hget : b.get.isSome = true) (hpost : b.post = none) :
    dispatchHTTP b Method.POST =
      Except.error (DispatchError.MethodNotAllowed (declaredMethods b)) ∧
    Method.GET ∈ declaredMethods b ∧
    (∀ m, m ∈ declaredMethods b ↔ (handlerFor b m).isSome = true) ∧
    (b.put = none → b.delete = none → declaredMethods b = [Method.GET]) := by
  obtain ⟨g, p, u, d, w, mw⟩ := b
  simp only [Option.isSome] at hget
  cases g with
  | none => simp at hget
  | some gh =>
    cases hpost
    refine ⟨rfl, ?_, ?_, ?_⟩
    · simp [declaredMethods]
    · intro m
      cases m <;> cases u <;> cases d <;>
        simp [declaredMethods, handlerFor]
    · intro hu hd
      cases hu; cases hd
      simp [declaredMethods]

/-- Witness for C7 at a concrete bundle declaring only a GET handler. -/
theorem c7_method_not_allowed_witness :
    dispatchHTTP (⟨some 0, none, none, none, none, []⟩ : HandlerBundle Nat Nat Nat)
        Method.POST =
      Except.error (DispatchError.MethodNotAllowed
        (declaredMethods (⟨some 0, none, none, none, none, []⟩ : HandlerBundle Nat Nat Nat))) ∧
    declaredMethods (⟨some 0, none, none, none, none, []⟩ : HandlerBundle Nat Nat Nat) =
      [Method.GET] :=
  ⟨(c7_method_not_allowed ⟨some 0, none, none, none, none, []⟩ rfl rfl).1,
   (c7_method_not_allowed ⟨some 0, none, none, none, none, []⟩ rfl rfl).2.2.2 rfl rfl⟩

/-- C1: registering the patterns /users/[id] and /users/new in either order
and matching the path /users/new returns the entry of the literal pattern
/users/new with its bundle, never the parametric /users/[id] entry. -/
theorem c1_literal_wins {α : Type} (b1 b2 : α) (t1 t2 : List (RouteEntry α))
    (h1 : build [("/users/[id]".data, b1), ("/users/new".data, b2)] = Except.ok t1)
    (h2 : build [("/users/new".data, b2), ("/users/[id]".data, b1)] = Except.ok t2) :
    (∃ r, tableMatch t1 "/users/new".data = some r ∧
      r.1.pattern.source = "/users/new".data ∧ r.1.bundle = b2 ∧
      r.1.pattern.source ≠ "/users/[id]".data) ∧
    (∃ r, tableMatch t2 "/users/new".data = some r ∧
      r.1.pattern.source = "/users/new".data ∧ r.1.bundle = b2 ∧
      r.1.pattern.source ≠ "/users/[id]".data) := by
  have e1 : build [("/users/[id]".data, b1), ("/users/new".data, b2)] =
      Except.ok [⟨⟨"/users/new".data,
          [Segment.Literal "users".data, Segment.Literal "new".data],
          ⟨2, 0, false, false⟩⟩, b2⟩,
        ⟨⟨"/users/[id]".data,
          [Segment.Literal "users".data, Segment.Required "id".data],
          ⟨1, 1, false, false⟩⟩, b1⟩] := rfl
  have e2 : build [("/users/new".data, b2), ("/users/[id]".data, b1)] =
      Except.ok [⟨⟨"/users/new".data,
          [Segment.Literal "users".data, Segment.Literal "new".data],
          ⟨2, 0, false, false⟩⟩, b2⟩,
        ⟨⟨"/users/[id]".data,
          [Segment.Literal "users".data, Segment.Required "id".data],
          ⟨1, 1, false, false⟩⟩, b1⟩] := rfl
  rw [e1] at h1
  rw [e2] at h2
  obtain rfl := Except.ok.inj h1
  obtain rfl := Except.ok.inj h2
  refine ⟨⟨_, rfl, rfl, rfl, ?_⟩, ⟨_, rfl, rfl, rfl, ?_⟩⟩
  · show "/users/new".data ≠ "/users/[id]".data
    decide
  · show "/users/new".data ≠ "/users/[id]".data
    decide

/-- Witness for C1 at concrete bundles and the resulting concrete tables. -/
theorem c1_literal_wins_witness :
    (∃ r, tableMatch [⟨⟨"/users/new".data,
          [Segment.Literal "users".data, Segment.Literal "new".data],
          ⟨2, 0, false, false⟩⟩, (2 : Nat)⟩,
        ⟨⟨"/users/[id]".data,
          [Segment.Literal "users".data, Segment.Required "id".data],
          ⟨1, 1, false, false⟩⟩, 1⟩] "/users/new".data = some r ∧
      r.1.pattern.source = "/users/new".data ∧ r.1.bundle = 2 ∧
      r.1.pattern.source ≠ "/users/[id]".data) ∧
    (∃ r, tableMatch [⟨⟨"/users/new".data,
          [Segment.Literal "users".data, Segment.Literal "new".data],
          ⟨2, 0, false, false⟩⟩, (2 : Nat)⟩,
        ⟨⟨"/users/[id]".data,
          [Segment.Literal "users".data, Segment.Required "id".data],
          ⟨1, 1, false, false⟩⟩, 1⟩] "/users/new".data = some r ∧
      r.1.pattern.source = "/users/new".data ∧ r.1.bundle = 2 ∧
      r.1.pattern.source ≠ "/users/[id]".data) :=
  c1_literal_wins 1 2 _ _ rfl rfl

/-- Helper for C6: a catch-like segment followed by at least one further
segment makes the misplaced check fire. -/
theorem misplaced_of_split (pre : List Segment) (c : Segment) (post : List Segment)
    (hc : isCatchLike c = true) (hpost : post ≠ []) :
    misplacedCatchAll (pre ++ c :: post) = true := by
  induction pre with
  | nil =>
    cases post with
    | nil => exact absurd rfl hpost
    | cons q qs => simp [misplacedCatchAll, hc]
  | cons s rest ih => simp [misplacedCatchAll, ih]

/-- C6: for every pattern string whose segments classify successfully with a
CatchAll or OptionalCatchAll segment in non-final position, compilation
fails with MisplacedCatchAll and produces no compiled pattern. -/
theorem c6_misplaced_catchall_rejected (s : String) (pre : List Segment) (c : Segment)
    (post : List Segment)
    (hclass : classifyAll (splitSegs s.data) = Except.ok (pre ++ c :: post))
    (hc : isCatchLike c = true) (hpost : post ≠ []) :
    compilePattern s = Except.error PatternError.MisplacedCatchAll := by
  unfold compilePattern compileChars
  rw [hclass]
  simp [misplaced_of_split pre c post hc hpost]

/-- Witness for C6 at the concrete misplaced pattern. -/
theorem c6_misplaced_catchall_rejected_witness :
    compilePattern "/[...a]/b" = Except.error PatternError.MisplacedCatchAll :=
  c6_misplaced_catchall_rejected "/[...a]/b" [] (Segment.CatchAll "a".data)
    [Segment.Literal "b".data] rfl rfl (by decide)

/-- Stripping a leading run succeeds exactly on lists extending that run. -/
theorem dropLead_some (p : List Char) :
    ∀ (cs r : List Char), dropLead p cs = some r → cs = p ++ r := by
  induction p with
  | nil =>
    intro cs r h
    simp [dropLead] at h
    simp [h]
  | cons a as ih =>
    intro cs r h
    cases cs with
    | nil => simp [dropLead] at h
    | cons c cs0 =>
      rw [dropLead] at h
      by_cases hac : a = c
      · rw [if_pos hac] at h
        subst hac
        simp [ih cs0 r h]
      · rw [if_neg hac] at h
        exact absurd h (by simp)

/-- Stripping a trailing run succeeds exactly on lists ending in that run. -/
theorem dropTail_some (suf cs r : List Char) (h : dropTail suf cs = some r) :
    cs = r ++ suf := by
  unfold dropTail at h
  cases hme : dropLead suf.reverse cs.reverse with
  | none => rw [hme] at h; simp at h
  | some r0 =>
    rw [hme] at h
    have h2 : List.reverse r0 = r := Option.some.inj h
    have hcs := dropLead_some suf.reverse cs.reverse r0 hme
    have hrev : cs = (suf.reverse ++ r0).reverse := by
      rw [← hcs, List.reverse_reverse]
    rw [hrev, List.reverse_append, List.reverse_reverse, h2]

/-- A successfully classified segment serializes back to exactly the chunk it
was classified from, and is well formed. -/
theorem classifySeg_inv (cs : List Char) (seg : Segment)
    (h : classifySeg cs = Except.ok seg) :
    serializeSeg seg = cs ∧ segWF seg = true := by
  unfold classifySeg at h
  split at h
  · rename_i r hr
    split at h
    · rename_i name hn
      split at h
      · rename_i hv
        cases h
        rw [dropLead_some _ cs r hr, dropTail_some _ r name hn]
        exact ⟨rfl, hv⟩
      · simp at h
    · simp at h
  · rename_i hr1
    split at h
    · rename_i r hr
      split at h
      · rename_i name hn
        split at h
        · rename_i hv
          cases h
          rw [dropLead_some _ cs r hr, dropTail_some _ r name hn]
          exact ⟨rfl, hv⟩
        · simp at h
      · simp at h
    · rename_i hr2
      split at h
      · rename_i r hr
        split at h
        · rename_i name hn
          split at h
          · rename_i hv
            cases h
            rw [dropLead_some _ cs r hr, dropTail_some _ r name hn]
            exact ⟨rfl, hv⟩
          · simp at h
        · simp at h
      · rename_i hr3
        split at h
        · rename_i r hr
          split at h
          · rename_i name hn
            split at h
            · rename_i hv
              cases h
              rw [dropLead_some _ cs r hr, dropTail_some _ r name hn]
              exact ⟨rfl, hv⟩
            · simp at h
          · simp at h
        · rename_i hr4
          split at h
          · rename_i hv
            cases h
            exact ⟨rfl, hv⟩
          · simp at h

/-- A valid name contains no slash. -/
theorem validName_no_slash (n : List Char) (h : validName n = true) : '/' ∉ n := by
  intro hm
  simp only [validName, Bool.and_eq_true, List.all_eq_true] at h
  have := h.2 '/' hm
  simp at this

/-- A valid literal contains no slash. -/
theorem validLit_no_slash (t : List Char) (h : validLit t = true) : '/' ∉ t := by
  intro hm
  simp only [validLit, Bool.and_eq_true, List.all_eq_true] at h
  have := h.2 '/' hm
  simp at this

/-- The serialization of a well-formed segment is a non-empty chunk free of
the slash delimiter. -/
theorem serializeSeg_chunk_ok (seg : Segment) (h : segWF seg = true) :
    serializeSeg seg ≠ [] ∧ '/' ∉ serializeSeg seg := by
  cases seg with
  | Literal t =>
    refine ⟨?_, validLit_no_slash t h⟩
    simp only [segWF, validLit, Bool.and_eq_true] at h
    simpa using h.1
  | Required n =>
    have hn := validName_no_slash n h
    refine ⟨by simp [serializeSeg], ?_⟩
    simp only [serializeSeg, List.mem_cons, List.mem_append, List.mem_singleton]
    rintro (hc | hc | hc)
    · exact absurd hc (by decide)
    · exact hn hc
    · exact absurd hc (by decide)
  | Optional n =>
    have hn := validName_no_slash n h
    refine ⟨by simp [serializeSeg], ?_⟩
    simp only [serializeSeg, List.mem_cons, List.mem_append]
    rintro (hc | hc | hc | hc | hc | hc)
    · exact absurd hc (by decide)
    · exact absurd hc (by decide)
    · exact hn hc
    · exact absurd hc (by decide)
    · exact absurd hc (by decide)
    · simp at hc
  | CatchAll n =>
    have hn := validName_no_slash n h
    refine ⟨by simp [serializeSeg], ?_⟩
    simp only [serializeSeg, List.mem_cons]
    rintro (hc | hc | hc | hc | hc)
    · exact absurd hc (by decide)
    · exact absurd hc (by decide)
    · exact absurd hc (by decide)
    · exact absurd hc (by decide)
    · rcases List.mem_append.mp hc with hc2 | hc2
      · exact hn hc2
      · rcases List.mem_cons.mp hc2 with hc3 | hc3
        · exact absurd hc3 (by decide)
        · simp at hc3
  | OptionalCatchAll n =>
    have hn := validName_no_slash n h
    refine ⟨by simp [serializeSeg], ?_⟩
    simp only [serializeSeg, List.mem_cons]
    rintro (hc | hc | hc | hc | hc | hc)
    · exact absurd hc (by decide)
    · exact absurd hc (by decide)
    · exact absurd hc (by decide)
    · exact absurd hc (by decide)
    · exact absurd hc (by decide)
    · rcases List.mem_append.mp hc with hc2 | hc2
      · exact hn hc2
      · rcases List.mem_cons.mp hc2 with hc3 | hc3
        · exact absurd hc3 (by decide)
        · rcases List.mem_cons.mp hc3 with hc4 | hc4
          · exact absurd hc4 (by decide)
          · simp at hc4

/-- Walking a slash-free run appends its reversal to the accumulator. -/
theorem splitSegsAux_no_slash (s : List Char) (hs : '/' ∉ s) :
    ∀ (cur rest : List Char),
      splitSegsAux cur (s ++ rest) = splitSegsAux (s.reverse ++ cur) rest := by
  induction s with
  | nil => intro cur rest; simp
  | cons c cs ih =>
    intro cur rest
    have hc : ¬(c = '/') := fun hcc => hs (by simp [hcc])
    have hs2 : '/' ∉ cs := fun hm => hs (List.mem_cons_of_mem _ hm)
    rw [List.cons_append]
    show (if c = '/' then _ else splitSegsAux (c :: cur) (cs ++ rest)) = _
    rw [if_neg hc, ih hs2 (c :: cur) rest]
    simp [List.reverse_cons, List.append_assoc]

/-- Starting the walk with a non-empty accumulator in front of a joined tail
emits the accumulated chunk first. -/
theorem splitSegsAux_acc_cons (c : List Char) (hcne : c ≠ []) (chunks : List (List Char)) :
    splitSegsAux c.reverse (joinSegs chunks) = c :: splitSegsAux [] (joinSegs chunks) := by
  cases chunks with
  | nil =>
    show (if c.reverse = [] then _ else [c.reverse.reverse]) = _
    rw [if_neg (by simpa using hcne)]
    simp [splitSegsAux]
  | cons d ds =>
    rw [joinSegs]
    show (if ('/' : Char) = '/' then
        if c.reverse = [] then splitSegsAux [] (d ++ joinSegs ds)
        else c.reverse.reverse :: splitSegsAux [] (d ++ joinSegs ds)
      else _) = _
    rw [if_pos rfl, if_neg (by simpa using hcne), List.reverse_reverse]
    show _ = c :: (if ('/' : Char) = '/' then
        if ([] : List Char) = [] then splitSegsAux [] (d ++ joinSegs ds) else _
      else _)
    rw [if_pos rfl, if_pos rfl]

/-- Splitting undoes joining for non-empty slash-free chunks. -/
theorem splitSegs_joinSegs (chunks : List (List Char))
    (h : ∀ c ∈ chunks, c ≠ [] ∧ '/' ∉ c) :
    splitSegs (joinSegs chunks) = chunks := by
  induction chunks with
  | nil => rfl
  | cons c cs ih =>
    have hc := h c (List.mem_cons_self ..)
    rw [joinSegs, splitSegs]
    show (if ('/' : Char) = '/' then
        if ([] : List Char) = [] then splitSegsAux [] (c ++ joinSegs cs) else _
      else _) = _
    rw [if_pos rfl, if_pos rfl]
    rw [splitSegsAux_no_slash c hc.2 [] (joinSegs cs), List.append_nil]
    rw [splitSegsAux_acc_cons c hc.1 cs]
    have ihr := ih (fun x hx => h x (List.mem_cons_of_mem _ hx))
    rw [splitSegs] at ihr
    rw [ihr]

/-- Every segment of a successful classification arose from some chunk. -/
theorem classifyAll_mem_inv (chunks : List (List Char)) (segs : List Segment)
    (h : classifyAll chunks = Except.ok segs) :
    ∀ seg ∈ segs, ∃ chunk, classifySeg chunk = Except.ok seg := by
  induction chunks generalizing segs with
  | nil =>
    have hnil : segs = [] := (Except.ok.inj h).symm
    subst hnil
    simp
  | cons c cs ih =>
    rw [classifyAll] at h
    cases h1 : classifySeg c with
    | error e => rw [h1] at h; simp at h
    | ok s =>
      cases h2 : classifyAll cs with
      | error e => rw [h1, h2] at h; simp at h
      | ok ss =>
        rw [h1, h2] at h
        have hss : segs = s :: ss := (Except.ok.inj h).symm
        subst hss
        intro seg hseg
        rcases List.mem_cons.mp hseg with hs | hs
        · exact ⟨c, hs ▸ h1⟩
        · exact ih ss h2 seg hs

/-- Classifying the serializations of segments that each round-trip yields
back the segment list. -/
theorem classifyAll_map_serialize (segs : List Segment)
    (h : ∀ seg ∈ segs, classifySeg (serializeSeg seg) = Except.ok seg) :
    classifyAll (segs.map serializeSeg) = Except.ok segs := by
  induction segs with
  | nil => rfl
  | cons s ss ih =>
    rw [List.map_cons, classifyAll]
    rw [h s (List.mem_cons_self ..), ih (fun x hx => h x (List.mem_cons_of_mem _ hx))]

/-- C8: for every valid pattern string, compiling the bracket-syntax
serialization of its compiled segment list succeeds, yields the same
segment list, and matches every request path with the same result as the
original compilation. -/
theorem c8_serialize_roundtrip (p : String) (cp : CompiledPattern)
    (h : compilePattern p = Except.ok cp) :
    ∃ cp2, compileChars (serializeSegs cp.segments) = Except.ok cp2 ∧
      cp2.segments = cp.segments ∧
      (∀ path : String, matchPattern cp2 path = matchPattern cp path) := by
  unfold compilePattern compileChars at h
  split at h
  · simp at h
  · rename_i segs hclass
    split at h
    · simp at h
    · split at h
      · simp at h
      · rename_i hmis hdup
        have hcp : cp = ⟨p.data, segs, specKey segs⟩ := (Except.ok.inj h).symm
        subst hcp
        have hserial : ∀ seg ∈ segs,
            classifySeg (serializeSeg seg) = Except.ok seg ∧ segWF seg = true := by
          intro seg hseg
          obtain ⟨chunk, hchunk⟩ := classifyAll_mem_inv _ _ hclass seg hseg
          obtain ⟨hs, hwf⟩ := classifySeg_inv chunk seg hchunk
          exact ⟨hs ▸ hchunk, hwf⟩
        have hchunks : ∀ c ∈ segs.map serializeSeg, c ≠ [] ∧ '/' ∉ c := by
          intro c hc
          obtain ⟨seg, hseg, rfl⟩ := List.mem_map.mp hc
          exact serializeSeg_chunk_ok seg (hserial seg hseg).2
        have hca : classifyAll (splitSegs (serializeSegs segs)) = Except.ok segs := by
          rw [serializeSegs, splitSegs_joinSegs _ hchunks]
          exact classifyAll_map_serialize segs (fun seg hseg => (hserial seg hseg).1)
        refine ⟨⟨serializeSegs segs, segs, specKey segs⟩, ?_, rfl, fun path => rfl⟩
        show compileChars (serializeSegs segs) = _
        unfold compileChars
        rw [hca]
        show (if misplacedCatchAll segs = true then
            (Except.error PatternError.MisplacedCatchAll : Except PatternError CompiledPattern)
          else if hasDupNames (paramNames segs) = true then
            Except.error PatternError.DuplicateParam
          else Except.ok ⟨serializeSegs segs, segs, specKey segs⟩) = _
        rw [if_neg hmis, if_neg hdup]

/-- Witness for C8 at the concrete pattern /blog/[id]. -/
theorem c8_serialize_roundtrip_witness :
    ∃ cp2, compileChars (serializeSegs (CompiledPattern.mk "/blog/[id]".data
        [Segment.Literal "blog".data, Segment.Required "id".data]
        ⟨1, 1, false, false⟩).segments) = Except.ok cp2 ∧
      cp2.segments = (CompiledPattern.mk "/blog/[id]".data
        [Segment.Literal "blog".data, Segment.Required "id".data]
        ⟨1, 1, false, false⟩).segments ∧
      (∀ path : String, matchPattern cp2 path =
        matchPattern (CompiledPattern.mk "/blog/[id]".data
          [Segment.Literal "blog".data, Segment.Required "id".data]
          ⟨1, 1, false, false⟩) path) :=
  c8_serialize_roundtrip "/blog/[id]" _ rfl
